import Mathlib

/-!
Verification of the ruuid UUID library binding used by the kamailio ruuid
module.  The repository ships the C header `ruuid.h` declaring the core
operations (generate nil / v4 / v5-sip, parse, is_nil, four formatters) and
the module `ruuid_mod.c` that calls them.  The core (Rust) implementation is
not part of the sources, so the core operations are modelled from the spec;
the module-level dispatch (`format_uuid`, `pv_parse_uuid_name`,
`w_uuid_is_nil`) is translated from `ruuid_mod.c`.

A UUID Value is modelled as its 16 bytes, each a `Nat` below 256.
Text is modelled as `List Char`.
-/

/-- Wellformed UUID byte list: exactly 16 bytes, each below 256. -/
def wfBytes (v : List Nat) : Prop := v.length = 16 ∧ ∀ b ∈ v, b < 256

instance (v : List Nat) : Decidable (wfBytes v) := by
  unfold wfBytes; infer_instance

/-- Modelled from the spec: lowercase hex digit for a nibble (formatting is
lowercase). -/
def hexDigit (n : Nat) : Char :=
  if n < 10 then Char.ofNat (48 + n) else Char.ofNat (97 + n - 10)

/-- Modelled from the spec: numeric value of a hex digit character,
case-insensitive; `none` when the character is not a hex digit. -/
def hexVal (c : Char) : Option Nat :=
  if 48 ≤ c.toNat ∧ c.toNat ≤ 57 then some (c.toNat - 48)
  else if 97 ≤ c.toNat ∧ c.toNat ≤ 102 then some (c.toNat - 97 + 10)
  else if 65 ≤ c.toNat ∧ c.toNat ≤ 70 then some (c.toNat - 65 + 10)
  else none

/-- Spec-side predicate (section 4.2 wording): a hex digit, case-insensitive. -/
def isHexDigit (c : Char) : Prop :=
  (48 ≤ c.toNat ∧ c.toNat ≤ 57) ∨ (97 ≤ c.toNat ∧ c.toNat ≤ 102) ∨
    (65 ≤ c.toNat ∧ c.toNat ≤ 70)

instance (c : Char) : Decidable (isHexDigit c) := by
  unfold isHexDigit; infer_instance

/-- Modelled from the spec: the nil generator `ruuid_generate_nil`, the
all-zero 128-bit Value. -/
def ruuid_generate_nil : List Nat := List.replicate 16 0

/-- Modelled from the spec: overwrite the RFC4122 version field (high nibble
of byte 6) with `ver` and the variant field (top two bits of byte 8) with the
binary pattern 10. -/
def setVersionVariant (ver : Nat) (bs : List Nat) : List Nat :=
  (bs.set 6 (16 * ver + bs.getD 6 0 % 16)).set 8 (128 + bs.getD 8 0 % 64)

/-- Modelled from the spec: `ruuid_generate_version_4` draws 128 random bits
(modelled as the input byte list) and overwrites version and variant. -/
def ruuid_generate_version_4 (randomBytes : List Nat) : List Nat :=
  setVersionVariant 4 randomBytes

/-- Modelled from the spec: render a byte list as lowercase hex characters,
two per byte, high nibble first. -/
def hexBytes : List Nat → List Char
  | [] => []
  | b :: bs => hexDigit (b / 16) :: hexDigit (b % 16) :: hexBytes bs

/-- The hyphen separator character. -/
def hyphen : Char := '-'

/-- The opening brace character of the braced style. -/
def lbrace : Char := Char.ofNat 123

/-- The closing brace character of the braced style. -/
def rbrace : Char := Char.ofNat 125

/-- The characters of the urn style marker `urn:uuid:`. -/
def urnMarker : List Char := ['u', 'r', 'n', ':', 'u', 'u', 'i', 'd', ':']

/-- Modelled from the spec: the simple rendering, 32 contiguous hex digits. -/
def formatSimple (v : List Nat) : List Char := hexBytes v

/-- Modelled from the spec: the hyphenated rendering, hex digit groups
8-4-4-4-12 joined by hyphens. -/
def formatHyphenated (v : List Nat) : List Char :=
  hexBytes (v.take 4) ++ hyphen ::
    (hexBytes ((v.drop 4).take 2) ++ hyphen ::
      (hexBytes ((v.drop 6).take 2) ++ hyphen ::
        (hexBytes ((v.drop 8).take 2) ++ hyphen :: hexBytes (v.drop 10))))

/-- Modelled from the spec: the urn rendering, `urn:uuid:` plus hyphenated. -/
def formatUrn (v : List Nat) : List Char := urnMarker ++ formatHyphenated v

/-- Modelled from the spec: the braced rendering, hyphenated wrapped in
braces. -/
def formatBraced (v : List Nat) : List Char :=
  lbrace :: (formatHyphenated v ++ [rbrace])

/-- The four formatting styles of the library. -/
inductive Style where
  | simple
  | hyphenated
  | urn
  | braced
deriving DecidableEq

/-- Modelled from the spec: rendering of a Value in a given style. -/
def ruuid_format : Style → List Nat → List Char
  | Style.simple, v => formatSimple v
  | Style.hyphenated, v => formatHyphenated v
  | Style.urn, v => formatUrn v
  | Style.braced, v => formatBraced v

/-- Modelled from the spec: copy a rendering plus a NUL terminator into the
caller's buffer, keeping the bytes of the buffer past the written region. -/
def writeBuffer (s : List Char) (buf : List Char) : List Char :=
  s ++ Char.ofNat 0 :: buf.drop (s.length + 1)

/-- Modelled from the spec: the common buffer-copy behaviour of the four
`ruuid_get_*` C functions: fail with -1 and leave the buffer untouched when
it cannot hold the rendering plus terminator, otherwise write the rendering
plus terminator and return the byte count excluding the terminator. -/
def ruuid_get (st : Style) (v : List Nat) (buf : List Char) : List Char × Int :=
  let s := ruuid_format st v
  if buf.length < s.length + 1 then (buf, -1)
  else (writeBuffer s buf, (s.length : Int))

/-- Modelled from the spec: `ruuid_get_simple`. -/
def ruuid_get_simple (v : List Nat) (buf : List Char) : List Char × Int :=
  ruuid_get Style.simple v buf

/-- Modelled from the spec: `ruuid_get_hyphenated`. -/
def ruuid_get_hyphenated (v : List Nat) (buf : List Char) : List Char × Int :=
  ruuid_get Style.hyphenated v buf

/-- Modelled from the spec: `ruuid_get_urn`. -/
def ruuid_get_urn (v : List Nat) (buf : List Char) : List Char × Int :=
  ruuid_get Style.urn v buf

/-- Modelled from the spec: `ruuid_get_braced`. -/
def ruuid_get_braced (v : List Nat) (buf : List Char) : List Char × Int :=
  ruuid_get Style.braced v buf

/-- Modelled from the spec: `ruuid_is_nil`; -1 on a null handle, 1 when every
byte is zero, 0 otherwise. -/
def ruuid_is_nil : Option (List Nat) → Int
  | none => -1
  | some v => if v.all (fun b => b = 0) then 1 else 0

/-- Modelled from the spec: read `n` bytes worth of hex digit pairs from the
front of the text, returning the bytes and the remaining text. -/
def readHexGroup : Nat → List Char → Option (List Nat × List Char)
  | 0, s => some ([], s)
  | n + 1, c1 :: c2 :: rest =>
    match hexVal c1, hexVal c2 with
    | some h, some l =>
      match readHexGroup n rest with
      | some (bs, r) => some ((16 * h + l) :: bs, r)
      | none => none
    | _, _ => none
  | _ + 1, [] => none
  | _ + 1, [_] => none

/-- Modelled from the spec: consume one expected character. -/
def expectChar (c : Char) : List Char → Option (List Char)
  | x :: rest => if x = c then some rest else none
  | [] => none

/-- Modelled from the spec: read the hyphenated hex layout 8-4-4-4-12 from
the front of the text, returning the 16 bytes and the remaining text. -/
def readHyphenated (s : List Char) : Option (List Nat × List Char) :=
  match readHexGroup 4 s with
  | none => none
  | some (b1, s1) =>
    match expectChar hyphen s1 with
    | none => none
    | some s2 =>
      match readHexGroup 2 s2 with
      | none => none
      | some (b2, s3) =>
        match expectChar hyphen s3 with
        | none => none
        | some s4 =>
          match readHexGroup 2 s4 with
          | none => none
          | some (b3, s5) =>
            match expectChar hyphen s5 with
            | none => none
            | some s6 =>
              match readHexGroup 2 s6 with
              | none => none
              | some (b4, s7) =>
                match expectChar hyphen s7 with
                | none => none
                | some s8 =>
                  match readHexGroup 6 s8 with
                  | none => none
                  | some (b5, s9) =>
                    some (b1 ++ b2 ++ b3 ++ b4 ++ b5, s9)

/-- Modelled from the spec: parse the simple shape, 32 contiguous hex
digits and nothing else. -/
def parseSimple (s : List Char) : Option (List Nat) :=
  match readHexGroup 16 s with
  | some (b, []) => some b
  | _ => none

/-- Modelled from the spec: parse the hyphenated shape and nothing else. -/
def parseHyphenated (s : List Char) : Option (List Nat) :=
  match readHyphenated s with
  | some (b, []) => some b
  | _ => none

/-- Modelled from the spec: parse the urn shape, `urn:uuid:` plus the
hyphenated shape. -/
def parseUrn (s : List Char) : Option (List Nat) :=
  if s.take 9 = urnMarker then parseHyphenated (s.drop 9) else none

/-- Modelled from the spec: parse the braced shape, the hyphenated shape
wrapped in braces. -/
def parseBraced (s : List Char) : Option (List Nat) :=
  match expectChar lbrace s with
  | none => none
  | some s1 =>
    match readHyphenated s1 with
    | none => none
    | some (b, s2) =>
      match expectChar rbrace s2 with
      | none => none
      | some s3 => if s3 = [] then some b else none

/-- Modelled from the spec: `ruuid_parse` accepts exactly the four textual
shapes, trying simple, hyphenated, urn and braced. -/
def ruuid_parse (s : List Char) : Option (List Nat) :=
  match parseSimple s with
  | some b => some b
  | none =>
    match parseHyphenated s with
    | some b => some b
    | none =>
      match parseUrn s with
      | some b => some b
      | none => parseBraced s

example : ruuid_parse ("00000000000000000000000000000000".toList) =
    some ruuid_generate_nil := by decide

example : ruuid_parse ("00000000-0000-0000-0000-000000000000".toList) =
    some ruuid_generate_nil := by decide

/-- Modelled from the spec: rotate a 32-bit word left by `n` bits. -/
def rotl32 (n x : Nat) : Nat := ((x <<< n) ||| (x >>> (32 - n))) % 4294967296

/-- Modelled from the spec: group bytes four at a time into big-endian 32-bit
words. -/
def wordsOfBytes : List Nat → List Nat
  | a :: b :: c :: d :: rest => (((a * 256 + b) * 256 + c) * 256 + d) :: wordsOfBytes rest
  | _ => []

/-- Modelled from the spec: the four big-endian bytes of a 32-bit word. -/
def wordToBytes (w : Nat) : List Nat :=
  [w / 16777216 % 256, w / 65536 % 256, w / 256 % 256, w % 256]

/-- Modelled from the spec: one SHA-1 message-schedule extension step; the
accumulator holds the words produced so far, most recent first. -/
def scheduleStep (ws : List Nat) : List Nat :=
  rotl32 1 (ws.getD 2 0 ^^^ ws.getD 7 0 ^^^ ws.getD 13 0 ^^^ ws.getD 15 0) :: ws

/-- Modelled from the spec: iterate the schedule extension step. -/
def extendN : Nat → List Nat → List Nat
  | 0, ws => ws
  | n + 1, ws => extendN n (scheduleStep ws)

/-- Modelled from the spec: the 80-word SHA-1 message schedule of one
64-byte block. -/
def sha1Schedule (block : List Nat) : List Nat :=
  (extendN 64 (wordsOfBytes block).reverse).reverse

/-- Modelled from the spec: the SHA-1 round function. -/
def sha1F (t b c d : Nat) : Nat :=
  if t < 20 then (b &&& c) ||| ((4294967295 - b) &&& d)
  else if t < 40 then b ^^^ c ^^^ d
  else if t < 60 then (b &&& c) ||| (b &&& d) ||| (c &&& d)
  else b ^^^ c ^^^ d

/-- Modelled from the spec: the SHA-1 round constants. -/
def sha1K (t : Nat) : Nat :=
  if t < 20 then 1518500249
  else if t < 40 then 1859775393
  else if t < 60 then 2400959708
  else 3395469782

/-- Modelled from the spec: one SHA-1 compression round. -/
def sha1Round (st : Nat × Nat × Nat × Nat × Nat) (t w : Nat) :
    Nat × Nat × Nat × Nat × Nat :=
  match st with
  | (a, b, c, d, e) =>
    ((rotl32 5 a + sha1F t b c d + e + sha1K t + w) % 4294967296,
      a, rotl32 30 b, c, d)

/-- Modelled from the spec: run the 80 compression rounds over the message
schedule. -/
def sha1Rounds : Nat → List Nat → Nat × Nat × Nat × Nat × Nat →
    Nat × Nat × Nat × Nat × Nat
  | _, [], st => st
  | t, w :: ws, st => sha1Rounds (t + 1) ws (sha1Round st t w)

/-- Modelled from the spec: compress one 64-byte block into the running
five-word SHA-1 state. -/
def sha1Block (h : List Nat) (block : List Nat) : List Nat :=
  let st := sha1Rounds 0 (sha1Schedule block)
    (h.getD 0 0, h.getD 1 0, h.getD 2 0, h.getD 3 0, h.getD 4 0)
  [(h.getD 0 0 + st.1) % 4294967296, (h.getD 1 0 + st.2.1) % 4294967296,
    (h.getD 2 0 + st.2.2.1) % 4294967296, (h.getD 3 0 + st.2.2.2.1) % 4294967296,
    (h.getD 4 0 + st.2.2.2.2) % 4294967296]

/-- Modelled from the spec: compress a padded message 64 bytes at a time. -/
def sha1Blocks (h : List Nat) (bytes : List Nat) : List Nat :=
  match bytes with
  | [] => h
  | b :: rest =>
    sha1Blocks (sha1Block h ((b :: rest).take 64)) ((b :: rest).drop 64)
termination_by bytes.length
decreasing_by simp [List.length_drop]; omega

/-- Modelled from the spec: the eight big-endian bytes of the 64-bit message
bit length. -/
def lengthBytes (bitLen : Nat) : List Nat :=
  [bitLen / 72057594037927936 % 256, bitLen / 281474976710656 % 256,
    bitLen / 1099511627776 % 256, bitLen / 4294967296 % 256,
    bitLen / 16777216 % 256, bitLen / 65536 % 256,
    bitLen / 256 % 256, bitLen % 256]

/-- Modelled from the spec: SHA-1 padding, a 0x80 byte, zero bytes up to 56
modulo 64, then the bit length in eight big-endian bytes. -/
def sha1Pad (msg : List Nat) : List Nat :=
  msg ++ 128 :: List.replicate ((119 - msg.length % 64) % 64) 0 ++
    lengthBytes (msg.length * 8)

/-- Modelled from the spec: the SHA-1 digest of a byte string, 20 bytes. -/
def sha1 (msg : List Nat) : List Nat :=
  (sha1Blocks [1732584193, 4023233417, 2562383102, 271733878, 3285377520]
      (sha1Pad msg)).flatMap wordToBytes

/-- Modelled from the spec: `ruuid_generate_version_5_sip`; fails on a null
or empty name, otherwise takes the first 16 bytes of SHA-1 over namespace
bytes followed by name bytes and overwrites version and variant.  The
namespace is the fixed constant baked into the library, kept abstract here
as an argument since the core is namespace-agnostic. -/
def ruuid_generate_version_5_sip (ns : List Nat) (name : Option (List Nat)) :
    Option (List Nat) :=
  match name with
  | none => none
  | some [] => none
  | some nm => some (setVersionVariant 5 ((sha1 (ns ++ nm)).take 16))

/-! Module layer, translated from `ruuid_mod.c`. -/

/-- Flag `UUID_NIL` from `enum uuid_name_flags`. -/
def UUID_NIL : Nat := 1

/-- Flag `UUID_VERSION_4` from `enum uuid_name_flags`. -/
def UUID_VERSION_4 : Nat := 2

/-- Flag `UUID_VERSION_5_SIP` from `enum uuid_name_flags`. -/
def UUID_VERSION_5_SIP : Nat := 4

/-- Flag `UUID_SIMPLE` from `enum uuid_name_flags`. -/
def UUID_SIMPLE : Nat := 8

/-- Flag `UUID_HYPHENATED` from `enum uuid_name_flags`. -/
def UUID_HYPHENATED : Nat := 16

/-- Flag `UUID_URN` from `enum uuid_name_flags`. -/
def UUID_URN : Nat := 32

/-- Flag `UUID_BRACED` from `enum uuid_name_flags`. -/
def UUID_BRACED : Nat := 64

/-- Flag `UUID_SIP_FROM` from `enum uuid_name_flags`. -/
def UUID_SIP_FROM : Nat := 128

/-- Flag `UUID_SIP_TO` from `enum uuid_name_flags`. -/
def UUID_SIP_TO : Nat := 256

/-- The `VERSION_FLAG_BITMASK` macro. -/
def VERSION_FLAG_BITMASK : Nat := UUID_NIL ||| UUID_VERSION_4 ||| UUID_VERSION_5_SIP

/-- The `FORMAT_FLAG_BITMASK` macro. -/
def FORMAT_FLAG_BITMASK : Nat :=
  UUID_SIMPLE ||| UUID_HYPHENATED ||| UUID_URN ||| UUID_BRACED

/-- The `RUUID_FORMATTING_MAX_LENGTH` macro from `ruuid.h`. -/
def RUUID_FORMATTING_MAX_LENGTH : Nat := 46

/-- The static `uuid_string` buffer after the `memset` in `format_uuid`:
`RUUID_FORMATTING_MAX_LENGTH` zero bytes. -/
def uuidBuffer : List Char :=
  List.replicate RUUID_FORMATTING_MAX_LENGTH (Char.ofNat 0)

/-- `format_uuid` from `ruuid_mod.c`: switch on the format-flag bits, with
both the `UUID_HYPHENATED` case and the default branch rendering
hyphenated. -/
def format_uuid (uuid : List Nat) (format : Nat) : List Char × Int :=
  if format &&& FORMAT_FLAG_BITMASK = UUID_SIMPLE then
    ruuid_get_simple uuid uuidBuffer
  else if format &&& FORMAT_FLAG_BITMASK = UUID_URN then
    ruuid_get_urn uuid uuidBuffer
  else if format &&& FORMAT_FLAG_BITMASK = UUID_BRACED then
    ruuid_get_braced uuid uuidBuffer
  else ruuid_get_hyphenated uuid uuidBuffer

/-- `generate_uuid` from `ruuid_mod.c`: switch on the version-flag bits; the
entropy input of the version-4 branch and the namespace constant of the
version-5 branch are passed explicitly. -/
def generate_uuid (uuid_flags : Nat) (name : Option (List Nat))
    (ns randomBytes : List Nat) : Option (List Nat) :=
  if uuid_flags &&& VERSION_FLAG_BITMASK = UUID_NIL then some ruuid_generate_nil
  else if uuid_flags &&& VERSION_FLAG_BITMASK = UUID_VERSION_4 then
    some (ruuid_generate_version_4 randomBytes)
  else if uuid_flags &&& VERSION_FLAG_BITMASK = UUID_VERSION_5_SIP then
    match name with
    | none => none
    | some nm => ruuid_generate_version_5_sip ns (some nm)
  else none

/-- The style-character switch of `pv_parse_uuid_name`: `s`/`S` simple,
`u`/`U` urn, `b`/`B` braced, anything else hyphenated. -/
def styleFlag (c : Char) : Nat :=
  if c = 's' ∨ c = 'S' then UUID_SIMPLE
  else if c = 'u' ∨ c = 'U' then UUID_URN
  else if c = 'b' ∨ c = 'B' then UUID_BRACED
  else UUID_HYPHENATED

/-- The tag-character switch of `pv_parse_uuid_name`: `f`/`F` from-tag,
`t`/`T` to-tag, anything else no extra flag. -/
def tagFlag (c : Char) : Nat :=
  if c = 'f' ∨ c = 'F' then UUID_SIP_FROM
  else if c = 't' ∨ c = 'T' then UUID_SIP_TO
  else 0

/-- `pv_parse_uuid_name` from `ruuid_mod.c`: fails on an empty name, decodes
the style from the first character and, when the name has exactly two
characters, a tag flag from the second. -/
def pv_parse_uuid_name (s : List Char) : Option Nat :=
  match s with
  | [] => none
  | c :: rest =>
    if rest.length = 1 then some (styleFlag c ||| tagFlag (rest.headD ' '))
    else some (styleFlag c)

/-- `w_uuid_is_nil` from `ruuid_mod.c`: the parameter retrieval is modelled
as an `Option` (`none` when `get_str_fparam` fails); parse the string, test
for nil, and map the result through `ret > 0 ? 1 : -1`. -/
def w_uuid_is_nil (uuidParam : Option (List Char)) : Int :=
  match uuidParam with
  | none => -1
  | some s =>
    match ruuid_parse s with
    | none => -1
    | some uuid =>
      let ret := ruuid_is_nil (some uuid)
      if ret > 0 then 1 else -1

/-! Spec-side textual shape predicates, following the wording of section 4.2
of the spec; these are compared with the parser. -/

/-- Spec wording: 32 contiguous hex digits, no separators. -/
def SimpleShape (s : List Char) : Prop :=
  s.length = 32 ∧ ∀ c ∈ s, isHexDigit c

/-- Spec wording: groups of 8-4-4-4-12 hex digits joined by `-` at exactly
those positions. -/
def HyphenatedShape (s : List Char) : Prop :=
  ∃ g1 g2 g3 g4 g5 : List Char,
    s = g1 ++ hyphen :: (g2 ++ hyphen :: (g3 ++ hyphen :: (g4 ++ hyphen :: g5))) ∧
    g1.length = 8 ∧ g2.length = 4 ∧ g3.length = 4 ∧ g4.length = 4 ∧
    g5.length = 12 ∧
    (∀ c ∈ g1, isHexDigit c) ∧ (∀ c ∈ g2, isHexDigit c) ∧
    (∀ c ∈ g3, isHexDigit c) ∧ (∀ c ∈ g4, isHexDigit c) ∧
    (∀ c ∈ g5, isHexDigit c)

/-- Spec wording: the hyphenated form prefixed with `urn:uuid:`. -/
def UrnShape (s : List Char) : Prop :=
  ∃ t, s = urnMarker ++ t ∧ HyphenatedShape t

/-- Spec wording: the hyphenated form wrapped in braces. -/
def BracedShape (s : List Char) : Prop :=
  ∃ t, s = lbrace :: (t ++ [rbrace]) ∧ HyphenatedShape t

/-! Lemmas about hex digits. -/

theorem hexVal_hexDigit : ∀ n < 16, hexVal (hexDigit n) = some n := by decide

theorem hexVal_isSome_iff (c : Char) : (hexVal c).isSome ↔ isHexDigit c := by
  unfold hexVal isHexDigit
  split_ifs with h1 h2 h3 <;> simp_all

theorem isHexDigit_of_hexVal {c : Char} {h : Nat} (hc : hexVal c = some h) :
    isHexDigit c := by
  rw [← hexVal_isSome_iff, hc]
  rfl

theorem hexBytes_length (bs : List Nat) : (hexBytes bs).length = 2 * bs.length := by
  induction bs with
  | nil => rfl
  | cons b t ih => simp [hexBytes, ih]; omega

/-! Lemmas about `readHexGroup`. -/

theorem readHexGroup_hexBytes (bs : List Nat) (hb : ∀ b ∈ bs, b < 256) :
    ∀ (n : Nat) (rest : List Char),
      readHexGroup (bs.length + n) (hexBytes bs ++ rest) =
        match readHexGroup n rest with
        | some (b2, r) => some (bs ++ b2, r)
        | none => none := by
  induction bs with
  | nil =>
    intro n rest
    simp only [hexBytes, List.length_nil, Nat.zero_add, List.nil_append]
    cases h : readHexGroup n rest with
    | none => simp
    | some p => cases p; simp
  | cons b t ih =>
    intro n rest
    have hb256 : b < 256 := hb b (List.mem_cons_self b t)
    have ht : ∀ x ∈ t, x < 256 := fun x hx => hb x (List.mem_cons_of_mem b hx)
    have hlen : (b :: t).length + n = (t.length + n) + 1 := by
      simp [List.length_cons]; omega
    rw [hlen]
    simp only [hexBytes, List.cons_append]
    rw [show readHexGroup (t.length + n + 1)
        (hexDigit (b / 16) :: hexDigit (b % 16) :: (hexBytes t ++ rest)) =
        match hexVal (hexDigit (b / 16)), hexVal (hexDigit (b % 16)) with
        | some h, some l =>
          match readHexGroup (t.length + n) (hexBytes t ++ rest) with
          | some (bs2, r) => some ((16 * h + l) :: bs2, r)
          | none => none
        | _, _ => none from rfl]
    rw [hexVal_hexDigit (b / 16) (by omega), hexVal_hexDigit (b % 16) (by omega)]
    rw [ih ht n rest]
    have hbeq : 16 * (b / 16) + b % 16 = b := by omega
    cases h : readHexGroup n rest with
    | none => simp
    | some p => cases p; simp [hbeq]

theorem readHexGroup_hexBytes_exact (bs : List Nat) (hb : ∀ b ∈ bs, b < 256)
    (rest : List Char) :
    readHexGroup bs.length (hexBytes bs ++ rest) = some (bs, rest) := by
  have h := readHexGroup_hexBytes bs hb 0 rest
  simpa [readHexGroup] using h

theorem readHexGroup_head_none (c : Char) (hc : hexVal c = none) (n : Nat)
    (s : List Char) : readHexGroup (n + 1) (c :: s) = none := by
  cases s with
  | nil => rfl
  | cons c2 t => cases h2 : hexVal c2 <;> simp [readHexGroup, hc, h2]

theorem readHexGroup_sound :
    ∀ (n : Nat) (s : List Char) (bs : List Nat) (r : List Char),
      readHexGroup n s = some (bs, r) →
      ∃ t, s = t ++ r ∧ t.length = 2 * n ∧ (∀ c ∈ t, isHexDigit c) ∧
        bs.length = n := by
  intro n
  induction n with
  | zero =>
    intro s bs r h
    simp only [readHexGroup, Option.some.injEq, Prod.mk.injEq] at h
    exact ⟨[], by simp [← h.1, ← h.2], by simp, by simp, by simp [← h.1]⟩
  | succ n ih =>
    intro s bs r h
    match s with
    | [] => simp [readHexGroup] at h
    | [c] => simp [readHexGroup] at h
    | c1 :: c2 :: rest =>
      rw [show readHexGroup (n + 1) (c1 :: c2 :: rest) =
          match hexVal c1, hexVal c2 with
          | some h, some l =>
            match readHexGroup n rest with
            | some (bs2, r) => some ((16 * h + l) :: bs2, r)
            | none => none
          | _, _ => none from rfl] at h
      cases h1 : hexVal c1 with
      | none => rw [h1] at h; cases h2 : hexVal c2 <;> rw [h2] at h <;> simp at h
      | some hv =>
        cases h2 : hexVal c2 with
        | none => rw [h1, h2] at h; simp at h
        | some lv =>
          rw [h1, h2] at h
          cases h3 : readHexGroup n rest with
          | none => rw [h3] at h; simp at h
          | some p =>
            obtain ⟨bs2, r2⟩ := p
            rw [h3] at h
            simp only [Option.some.injEq, Prod.mk.injEq] at h
            obtain ⟨hbs, hr⟩ := h
            obtain ⟨t, hts, htl, hth, hbl⟩ := ih rest bs2 r2 h3
            refine ⟨c1 :: c2 :: t, ?_, ?_, ?_, ?_⟩
            · simp [hts, hr]
            · simp [htl]; omega
            · intro c hc
              rcases hc with _ | ⟨_, hc⟩
              · exact isHexDigit_of_hexVal h1
              · rcases hc with _ | ⟨_, hc⟩
                · exact isHexDigit_of_hexVal h2
                · exact hth c (by assumption)
            · simp [← hbs, hbl]

theorem readHexGroup_complete :
    ∀ (n : Nat) (g : List Char), (∀ c ∈ g, isHexDigit c) → g.length = 2 * n →
      ∀ rest, ∃ bs, readHexGroup n (g ++ rest) = some (bs, rest) := by
  intro n
  induction n with
  | zero =>
    intro g _ hl rest
    have : g = [] := List.length_eq_zero.mp (by omega)
    exact ⟨[], by simp [this, readHexGroup]⟩
  | succ n ih =>
    intro g hg hl rest
    match g with
    | [] => simp at hl
    | [c] => simp at hl; omega
    | c1 :: c2 :: t =>
      have h1 : isHexDigit c1 := hg c1 (by simp)
      have h2 : isHexDigit c2 := hg c2 (by simp)
      obtain ⟨hv, hv1⟩ := Option.isSome_iff_exists.mp ((hexVal_isSome_iff c1).mpr h1)
      obtain ⟨lv, hv2⟩ := Option.isSome_iff_exists.mp ((hexVal_isSome_iff c2).mpr h2)
      have ht : ∀ c ∈ t, isHexDigit c := fun c hc => hg c (by simp [hc])
      have htl : t.length = 2 * n := by simp at hl; omega
      obtain ⟨bs, hbs⟩ := ih t ht htl rest
      refine ⟨(16 * hv + lv) :: bs, ?_⟩
      rw [show (c1 :: c2 :: t) ++ rest = c1 :: c2 :: (t ++ rest) from rfl]
      rw [show readHexGroup (n + 1) (c1 :: c2 :: (t ++ rest)) =
          match hexVal c1, hexVal c2 with
          | some h, some l =>
            match readHexGroup n (t ++ rest) with
            | some (bs2, r) => some ((16 * h + l) :: bs2, r)
            | none => none
          | _, _ => none from rfl]
      rw [hv1, hv2, hbs]

/-! Round-trip lemmas: formatting then parsing recovers the bytes. -/

theorem readHyphenated_formatHyphenated (v : List Nat) (hv : wfBytes v)
    (rest : List Char) :
    readHyphenated (formatHyphenated v ++ rest) = some (v, rest) := by
  obtain ⟨hlen, hlt⟩ := hv
  have hb1 : ∀ b ∈ v.take 4, b < 256 := fun b hb => hlt b (List.take_subset _ _ hb)
  have hb2 : ∀ b ∈ (v.drop 4).take 2, b < 256 :=
    fun b hb => hlt b (List.drop_subset _ _ (List.take_subset _ _ hb))
  have hb3 : ∀ b ∈ (v.drop 6).take 2, b < 256 :=
    fun b hb => hlt b (List.drop_subset _ _ (List.take_subset _ _ hb))
  have hb4 : ∀ b ∈ (v.drop 8).take 2, b < 256 :=
    fun b hb => hlt b (List.drop_subset _ _ (List.take_subset _ _ hb))
  have hb5 : ∀ b ∈ v.drop 10, b < 256 := fun b hb => hlt b (List.drop_subset _ _ hb)
  have hl1 : (v.take 4).length = 4 := by simp [List.length_take, hlen]
  have hl2 : ((v.drop 4).take 2).length = 2 := by
    simp [List.length_take, List.length_drop, hlen]
  have hl3 : ((v.drop 6).take 2).length = 2 := by
    simp [List.length_take, List.length_drop, hlen]
  have hl4 : ((v.drop 8).take 2).length = 2 := by
    simp [List.length_take, List.length_drop, hlen]
  have hl5 : (v.drop 10).length = 6 := by simp [List.length_drop, hlen]
  have r1 : ∀ X, readHexGroup 4 (hexBytes (v.take 4) ++ X) = some (v.take 4, X) := by
    intro X
    have h := readHexGroup_hexBytes_exact (v.take 4) hb1 X
    rwa [hl1] at h
  have r2 : ∀ X, readHexGroup 2 (hexBytes ((v.drop 4).take 2) ++ X) =
      some ((v.drop 4).take 2, X) := by
    intro X
    have h := readHexGroup_hexBytes_exact ((v.drop 4).take 2) hb2 X
    rwa [hl2] at h
  have r3 : ∀ X, readHexGroup 2 (hexBytes ((v.drop 6).take 2) ++ X) =
      some ((v.drop 6).take 2, X) := by
    intro X
    have h := readHexGroup_hexBytes_exact ((v.drop 6).take 2) hb3 X
    rwa [hl3] at h
  have r4 : ∀ X, readHexGroup 2 (hexBytes ((v.drop 8).take 2) ++ X) =
      some ((v.drop 8).take 2, X) := by
    intro X
    have h := readHexGroup_hexBytes_exact ((v.drop 8).take 2) hb4 X
    rwa [hl4] at h
  have r5 : ∀ X, readHexGroup 6 (hexBytes (v.drop 10) ++ X) =
      some (v.drop 10, X) := by
    intro X
    have h := readHexGroup_hexBytes_exact (v.drop 10) hb5 X
    rwa [hl5] at h
  have e1 : v.take 4 ++ (v.drop 4).take 2 = v.take 6 := by
    simpa using (List.take_add v 4 2).symm
  have e2 : v.take 6 ++ (v.drop 6).take 2 = v.take 8 := by
    simpa using (List.take_add v 6 2).symm
  have e3 : v.take 8 ++ (v.drop 8).take 2 = v.take 10 := by
    simpa using (List.take_add v 8 2).symm
  have e4 : v.take 10 ++ v.drop 10 = v := List.take_append_drop 10 v
  simp only [formatHyphenated, List.append_assoc, List.cons_append]
  simp only [readHyphenated, r1, r2, r3, r4, r5, expectChar, if_pos]
  rw [show v.take 4 ++ (v.drop 4).take 2 ++ (v.drop 6).take 2 ++
      (v.drop 8).take 2 ++ v.drop 10 = v from by rw [e1, e2, e3, e4]]

theorem parseSimple_formatSimple (v : List Nat) (hv : wfBytes v) :
    parseSimple (formatSimple v) = some v := by
  obtain ⟨hlen, hlt⟩ := hv
  have h := readHexGroup_hexBytes_exact v hlt []
  rw [List.append_nil, hlen] at h
  simp [parseSimple, formatSimple, h]

theorem parseHyphenated_formatHyphenated (v : List Nat) (hv : wfBytes v) :
    parseHyphenated (formatHyphenated v) = some v := by
  have h := readHyphenated_formatHyphenated v hv []
  rw [List.append_nil] at h
  simp [parseHyphenated, h]

theorem parseSimple_formatHyphenated (v : List Nat) (hv : wfBytes v) :
    parseSimple (formatHyphenated v) = none := by
  obtain ⟨hlen, hlt⟩ := hv
  have hb1 : ∀ b ∈ v.take 4, b < 256 := fun b hb => hlt b (List.take_subset _ _ hb)
  have hl1 : (v.take 4).length = 4 := by simp [List.length_take, hlen]
  have key : ∀ X, readHexGroup 16 (hexBytes (v.take 4) ++ (hyphen :: X)) = none := by
    intro X
    have h := readHexGroup_hexBytes (v.take 4) hb1 12 (hyphen :: X)
    rw [hl1] at h
    norm_num at h
    have h12 : readHexGroup 12 (hyphen :: X) = none := by
      have h11 := readHexGroup_head_none hyphen (by decide) 11 X
      norm_num at h11
      exact h11
    rw [h12] at h
    simpa using h
  simp only [formatHyphenated, List.append_assoc, List.cons_append]
  simp [parseSimple, key]

theorem readHyphenated_head_none (c : Char) (hc : hexVal c = none)
    (s : List Char) : readHyphenated (c :: s) = none := by
  have h := readHexGroup_head_none c hc 3 s
  norm_num at h
  simp [readHyphenated, h]

theorem parseSimple_head_none (c : Char) (hc : hexVal c = none) (s : List Char) :
    parseSimple (c :: s) = none := by
  have h := readHexGroup_head_none c hc 15 s
  norm_num at h
  simp [parseSimple, h]

theorem parseHyphenated_head_none (c : Char) (hc : hexVal c = none)
    (s : List Char) : parseHyphenated (c :: s) = none := by
  simp [parseHyphenated, readHyphenated_head_none c hc s]

theorem parseUrn_formatUrn (v : List Nat) (hv : wfBytes v) :
    parseUrn (formatUrn v) = some v := by
  unfold parseUrn formatUrn
  rw [List.take_left' (by rfl), List.drop_left' (by rfl), if_pos rfl]
  exact parseHyphenated_formatHyphenated v hv

theorem parseUrn_head_ne (c : Char) (hc : c ≠ 'u') (s : List Char) :
    parseUrn (c :: s) = none := by
  unfold parseUrn
  rw [if_neg]
  intro h
  rw [show (c :: s).take 9 = c :: s.take 8 from rfl] at h
  rw [show urnMarker = 'u' :: ['r', 'n', ':', 'u', 'u', 'i', 'd', ':'] from rfl] at h
  exact hc (List.cons.injEq .. ▸ h).1

theorem parseBraced_formatBraced (v : List Nat) (hv : wfBytes v) :
    parseBraced (formatBraced v) = some v := by
  simp [parseBraced, formatBraced, expectChar,
    readHyphenated_formatHyphenated v hv]

theorem ruuid_parse_ruuid_format (v : List Nat) (hv : wfBytes v) (st : Style) :
    ruuid_parse (ruuid_format st v) = some v := by
  cases st with
  | simple => simp [ruuid_parse, ruuid_format, parseSimple_formatSimple v hv]
  | hyphenated =>
    simp [ruuid_parse, ruuid_format, parseSimple_formatHyphenated v hv,
      parseHyphenated_formatHyphenated v hv]
  | urn =>
    have h1 : parseSimple (formatUrn v) = none :=
      parseSimple_head_none 'u' (by decide) _
    have h2 : parseHyphenated (formatUrn v) = none :=
      parseHyphenated_head_none 'u' (by decide) _
    simp [ruuid_parse, ruuid_format, h1, h2, parseUrn_formatUrn v hv]
  | braced =>
    have h1 : parseSimple (formatBraced v) = none :=
      parseSimple_head_none lbrace (by decide) _
    have h2 : parseHyphenated (formatBraced v) = none :=
      parseHyphenated_head_none lbrace (by decide) _
    have h3 : parseUrn (formatBraced v) = none :=
      parseUrn_head_ne lbrace (by decide) _
    simp [ruuid_parse, h1, h2, h3, ruuid_format, parseBraced_formatBraced v hv]

/-! Soundness and completeness of the parser against the spec-side shapes. -/

theorem expectChar_sound {c : Char} {s r : List Char}
    (h : expectChar c s = some r) : s = c :: r := by
  match s with
  | [] => simp [expectChar] at h
  | x :: t =>
    simp only [expectChar] at h
    split_ifs at h with hxc
    · subst hxc
      simp only [Option.some.injEq] at h
      rw [h]

theorem readHyphenated_sound {s : List Char} {b : List Nat} {r : List Char}
    (h : readHyphenated s = some (b, r)) :
    ∃ t, s = t ++ r ∧ HyphenatedShape t := by
  unfold readHyphenated at h
  split at h
  · exact absurd h (by simp)
  rename_i b1 s1 h1
  split at h
  · exact absurd h (by simp)
  rename_i s2 e1
  split at h
  · exact absurd h (by simp)
  rename_i b2 s3 h2
  split at h
  · exact absurd h (by simp)
  rename_i s4 e2
  split at h
  · exact absurd h (by simp)
  rename_i b3 s5 h3
  split at h
  · exact absurd h (by simp)
  rename_i s6 e3
  split at h
  · exact absurd h (by simp)
  rename_i b4 s7 h4
  split at h
  · exact absurd h (by simp)
  rename_i s8 e4
  split at h
  · exact absurd h (by simp)
  rename_i b5 s9 h5
  simp only [Option.some.injEq, Prod.mk.injEq] at h
  obtain ⟨-, hr⟩ := h
  obtain ⟨t1, hs1, hl1, hx1, -⟩ := readHexGroup_sound 4 s b1 s1 h1
  obtain ⟨t2, hs2, hl2, hx2, -⟩ := readHexGroup_sound 2 s2 b2 s3 h2
  obtain ⟨t3, hs3, hl3, hx3, -⟩ := readHexGroup_sound 2 s4 b3 s5 h3
  obtain ⟨t4, hs4, hl4, hx4, -⟩ := readHexGroup_sound 2 s6 b4 s7 h4
  obtain ⟨t5, hs5, hl5, hx5, -⟩ := readHexGroup_sound 6 s8 b5 s9 h5
  refine ⟨t1 ++ hyphen :: (t2 ++ hyphen :: (t3 ++ hyphen ::
    (t4 ++ hyphen :: t5))), ?_, t1, t2, t3, t4, t5, rfl,
    by omega, by omega, by omega, by omega, by omega,
    hx1, hx2, hx3, hx4, hx5⟩
  rw [hs1, expectChar_sound e1, hs2, expectChar_sound e2,
    hs3, expectChar_sound e3, hs4, expectChar_sound e4, hs5, hr]
  simp [List.append_assoc, List.cons_append]

theorem readHyphenated_complete {t : List Char} (hs : HyphenatedShape t)
    (rest : List Char) : ∃ b, readHyphenated (t ++ rest) = some (b, rest) := by
  obtain ⟨g1, g2, g3, g4, g5, rfl, l1, l2, l3, l4, l5, x1, x2, x3, x4, x5⟩ := hs
  obtain ⟨b1, hb1⟩ := readHexGroup_complete 4 g1 x1 (by omega)
    (hyphen :: (g2 ++ hyphen :: (g3 ++ hyphen :: (g4 ++ hyphen :: (g5 ++ rest)))))
  obtain ⟨b2, hb2⟩ := readHexGroup_complete 2 g2 x2 (by omega)
    (hyphen :: (g3 ++ hyphen :: (g4 ++ hyphen :: (g5 ++ rest))))
  obtain ⟨b3, hb3⟩ := readHexGroup_complete 2 g3 x3 (by omega)
    (hyphen :: (g4 ++ hyphen :: (g5 ++ rest)))
  obtain ⟨b4, hb4⟩ := readHexGroup_complete 2 g4 x4 (by omega)
    (hyphen :: (g5 ++ rest))
  obtain ⟨b5, hb5⟩ := readHexGroup_complete 6 g5 x5 (by omega) rest
  refine ⟨b1 ++ b2 ++ b3 ++ b4 ++ b5, ?_⟩
  simp only [List.append_assoc, List.cons_append]
  simp [readHyphenated, hb1, hb2, hb3, hb4, hb5, expectChar]

theorem parseSimple_isSome_iff (s : List Char) :
    (parseSimple s).isSome ↔ SimpleShape s := by
  constructor
  · intro h
    unfold parseSimple at h
    cases hg : readHexGroup 16 s with
    | none => rw [hg] at h; simp at h
    | some p =>
      obtain ⟨b, r⟩ := p
      rw [hg] at h
      cases r with
      | cons c t => simp at h
      | nil =>
        obtain ⟨t, hts, htl, hth, -⟩ := readHexGroup_sound 16 s b [] hg
        rw [List.append_nil] at hts
        subst hts
        exact ⟨by omega, hth⟩
  · rintro ⟨hl, hh⟩
    obtain ⟨bs, hbs⟩ := readHexGroup_complete 16 s hh (by omega) []
    rw [List.append_nil] at hbs
    simp [parseSimple, hbs]

theorem parseHyphenated_isSome_iff (s : List Char) :
    (parseHyphenated s).isSome ↔ HyphenatedShape s := by
  constructor
  · intro h
    unfold parseHyphenated at h
    cases hg : readHyphenated s with
    | none => rw [hg] at h; simp at h
    | some p =>
      obtain ⟨b, r⟩ := p
      rw [hg] at h
      cases r with
      | cons c t => simp at h
      | nil =>
        obtain ⟨t, hts, hsh⟩ := readHyphenated_sound hg
        rw [List.append_nil] at hts
        subst hts
        exact hsh
  · intro hs
    obtain ⟨b, hb⟩ := readHyphenated_complete hs []
    rw [List.append_nil] at hb
    simp [parseHyphenated, hb]

theorem parseUrn_isSome_iff (s : List Char) : (parseUrn s).isSome ↔ UrnShape s := by
  unfold parseUrn
  split_ifs with h9
  · rw [parseHyphenated_isSome_iff]
    constructor
    · intro hh
      exact ⟨s.drop 9, by rw [← h9, List.take_append_drop], hh⟩
    · rintro ⟨t, rfl, ht⟩
      rwa [List.drop_left' (by rfl)]
  · simp only [Option.isSome_none, Bool.false_eq_true, false_iff]
    rintro ⟨t, rfl, ht⟩
    exact h9 (List.take_left' rfl)

theorem parseBraced_isSome_iff (s : List Char) :
    (parseBraced s).isSome ↔ BracedShape s := by
  constructor
  · intro h
    unfold parseBraced at h
    split at h
    · exact absurd h (by simp)
    rename_i s1 e1
    split at h
    · exact absurd h (by simp)
    rename_i b s2 hr
    split at h
    · exact absurd h (by simp)
    rename_i s3 e2
    split_ifs at h with h3
    · subst h3
      have hs1 := expectChar_sound e1
      have hs2 := expectChar_sound e2
      obtain ⟨t, hts, hsh⟩ := readHyphenated_sound hr
      refine ⟨t, ?_, hsh⟩
      rw [hs1, hts, hs2]
    · simp at h
  · rintro ⟨t, rfl, ht⟩
    obtain ⟨b, hb⟩ := readHyphenated_complete ht [rbrace]
    simp [parseBraced, expectChar, hb]

/-! Wellformedness preservation and version/variant byte lemmas. -/

theorem wfBytes_setVersionVariant (ver : Nat) (hver : ver < 16) (bs : List Nat)
    (h : wfBytes bs) : wfBytes (setVersionVariant ver bs) := by
  obtain ⟨hl, hb⟩ := h
  refine ⟨by simp [setVersionVariant, List.length_set, hl], ?_⟩
  intro b hbmem
  unfold setVersionVariant at hbmem
  rcases List.mem_or_eq_of_mem_set hbmem with h1 | h1
  · rcases List.mem_or_eq_of_mem_set h1 with h2 | h2
    · exact hb b h2
    · subst h2; omega
  · subst h1; omega

theorem wfBytes_generate_version_4 (r : List Nat) (h : wfBytes r) :
    wfBytes (ruuid_generate_version_4 r) :=
  wfBytes_setVersionVariant 4 (by omega) r h

theorem getD_setVersionVariant_6 (ver : Nat) (bs : List Nat)
    (h : 16 ≤ bs.length) :
    (setVersionVariant ver bs).getD 6 0 = 16 * ver + bs.getD 6 0 % 16 := by
  unfold setVersionVariant
  rw [List.getD_eq_getElem?_getD, List.getElem?_set_ne (by omega : (8 : Nat) ≠ 6),
    List.getElem?_set_self (by omega)]
  rfl

theorem getD_setVersionVariant_8 (ver : Nat) (bs : List Nat)
    (h : 16 ≤ bs.length) :
    (setVersionVariant ver bs).getD 8 0 = 128 + bs.getD 8 0 % 64 := by
  unfold setVersionVariant
  rw [List.getD_eq_getElem?_getD,
    List.getElem?_set_self (by rw [List.length_set]; omega)]
  rfl

theorem sha1Block_length (h block : List Nat) : (sha1Block h block).length = 5 := by
  simp [sha1Block]

theorem sha1Blocks_eq_or_length (h bytes : List Nat) :
    sha1Blocks h bytes = h ∨ (sha1Blocks h bytes).length = 5 := by
  induction h, bytes using sha1Blocks.induct with
  | case1 h => left; simp [sha1Blocks]
  | case2 h b rest ih =>
    rw [sha1Blocks]
    rcases ih with h1 | h1
    · right; rw [h1]; exact sha1Block_length _ _
    · right; exact h1

theorem flatMap_wordToBytes_length (ws : List Nat) :
    (ws.flatMap wordToBytes).length = 4 * ws.length := by
  induction ws with
  | nil => rfl
  | cons w t ih => simp [List.flatMap_cons, wordToBytes, ih]; omega

theorem sha1_length (msg : List Nat) : (sha1 msg).length = 20 := by
  unfold sha1
  rw [flatMap_wordToBytes_length]
  rcases sha1Blocks_eq_or_length
      [1732584193, 4023233417, 2562383102, 271733878, 3285377520]
      (sha1Pad msg) with h | h <;> simp [h]

theorem sha1_bytes_lt (msg : List Nat) : ∀ b ∈ sha1 msg, b < 256 := by
  intro b hb
  unfold sha1 at hb
  rw [List.mem_flatMap] at hb
  obtain ⟨w, -, hw⟩ := hb
  simp only [wordToBytes, List.mem_cons, List.not_mem_nil, or_false] at hw
  rcases hw with h | h | h | h <;> omega

theorem wfBytes_sha1_take (x : List Nat) : wfBytes ((sha1 x).take 16) :=
  ⟨by simp [List.length_take, sha1_length],
    fun b hb => sha1_bytes_lt x b (List.take_subset _ _ hb)⟩

/-! Rendering positions of the version and variant hex digits. -/

theorem hexBytes_getElem? (bs : List Nat) :
    ∀ i, i < bs.length →
      (hexBytes bs)[2 * i]? = some (hexDigit (bs.getD i 0 / 16)) := by
  induction bs with
  | nil => intro i hi; simp at hi
  | cons b t ih =>
    intro i hi
    cases i with
    | zero => rfl
    | succ j =>
      rw [show 2 * (j + 1) = 2 * j + 1 + 1 from by omega]
      simp only [hexBytes, List.getElem?_cons_succ]
      rw [ih j (by simpa using hi)]
      rfl

theorem hexDigit_variant (x : Nat) :
    hexDigit ((128 + x % 64) / 16) ∈ (['8', '9', 'a', 'b'] : List Char) := by
  rw [show (128 + x % 64) / 16 = 8 + x % 64 / 16 from by omega]
  have h2 : x % 64 / 16 < 4 := by omega
  set k := x % 64 / 16 with hk
  interval_cases k <;> decide

/-! Formatted lengths. -/

/-- Spec-side table of required rendering lengths, section 4.3. -/
def requiredLength : Style → Nat
  | Style.simple => 32
  | Style.hyphenated => 36
  | Style.urn => 45
  | Style.braced => 38

theorem ruuid_format_length (v : List Nat) (hv : wfBytes v) (st : Style) :
    (ruuid_format st v).length = requiredLength st := by
  cases st <;>
    simp [ruuid_format, requiredLength, formatSimple, formatHyphenated,
      formatUrn, formatBraced, hexBytes_length, List.length_take,
      List.length_drop, hv.1, urnMarker]

/-- The properties of the version and variant fields after an overwrite:
field values and the hex digits at positions 12 and 16 of the simple
rendering. -/
theorem setVersionVariant_fields (ver : Nat) (bs : List Nat)
    (hbs : wfBytes bs) :
    (setVersionVariant ver bs).getD 6 0 / 16 = ver ∧
    (setVersionVariant ver bs).getD 8 0 / 64 = 2 ∧
    (formatSimple (setVersionVariant ver bs))[12]? = some (hexDigit ver) ∧
    ∃ c, (formatSimple (setVersionVariant ver bs))[16]? = some c ∧
      c ∈ (['8', '9', 'a', 'b'] : List Char) := by
  obtain ⟨hl, hb⟩ := hbs
  have h16 : (16 : Nat) ≤ bs.length := by omega
  have g6 := getD_setVersionVariant_6 ver bs h16
  have g8 := getD_setVersionVariant_8 ver bs h16
  have hvl : (setVersionVariant ver bs).length = 16 := by
    simp [setVersionVariant, List.length_set, hl]
  have h12 := hexBytes_getElem? (setVersionVariant ver bs) 6 (by omega)
  have h16c := hexBytes_getElem? (setVersionVariant ver bs) 8 (by omega)
  norm_num at h12 h16c
  rw [← List.getD_eq_getElem?_getD] at h12 h16c
  rw [g6] at h12
  rw [g8] at h16c
  rw [show (16 * ver + bs.getD 6 0 % 16) / 16 = ver from by omega] at h12
  refine ⟨by omega, by omega, h12, ⟨hexDigit ((128 + bs.getD 8 0 % 64) / 16),
    h16c, hexDigit_variant (bs.getD 8 0)⟩⟩

theorem tagFlag_cases (c : Char) :
    tagFlag c = UUID_SIP_FROM ∨ tagFlag c = UUID_SIP_TO ∨ tagFlag c = 0 := by
  unfold tagFlag
  split_ifs <;> simp

/-! The claims. -/

/-- C1: for every style S in Simple, Hyphenated, Urn, Braced and every Value
produced by `ruuid_generate_version_4` from wellformed random bytes, parsing
the text produced by formatting that Value in style S yields the identical
Value. -/
theorem claim_c1_v4_format_parse_roundtrip (r : List Nat) (st : Style)
    (hr : wfBytes r) :
    ruuid_parse (ruuid_format st (ruuid_generate_version_4 r)) =
      some (ruuid_generate_version_4 r) :=
  ruuid_parse_ruuid_format _ (wfBytes_generate_version_4 r hr) st

theorem claim_c1_v4_format_parse_roundtrip_witness :
    wfBytes [0, 1, 2, 3, 4, 5, 6, 7, 8, 9, 250, 251, 252, 253, 254, 255] ∧
    ruuid_parse (ruuid_format Style.urn (ruuid_generate_version_4
        [0, 1, 2, 3, 4, 5, 6, 7, 8, 9, 250, 251, 252, 253, 254, 255])) =
      some (ruuid_generate_version_4
        [0, 1, 2, 3, 4, 5, 6, 7, 8, 9, 250, 251, 252, 253, 254, 255]) :=
  ⟨by decide, claim_c1_v4_format_parse_roundtrip _ Style.urn (by decide)⟩

/-- C2: version-5 named generation is deterministic: equal namespace bytes
and equal name bytes give bit-identical Values, and the Value is the first
128 bits of SHA-1 over namespace concatenated with name, with the version
and variant fields overwritten. -/
theorem claim_c2_v5_deterministic (ns1 ns2 : List Nat)
    (nm1 nm2 : Option (List Nat)) (hns : ns1 = ns2) (hnm : nm1 = nm2) :
    ruuid_generate_version_5_sip ns1 nm1 =
      ruuid_generate_version_5_sip ns2 nm2 ∧
    ∀ nm, nm1 = some nm → nm ≠ [] →
      ruuid_generate_version_5_sip ns1 nm1 =
        some (setVersionVariant 5 ((sha1 (ns1 ++ nm)).take 16)) := by
  subst hns
  subst hnm
  refine ⟨rfl, ?_⟩
  intro nm h hne
  subst h
  match nm, hne with
  | b :: t, _ => rfl

theorem claim_c2_v5_deterministic_witness :
    ([1, 2] : List Nat) = [1, 2] ∧
    (some [97] : Option (List Nat)) = some [97] ∧
    (ruuid_generate_version_5_sip [1, 2] (some [97]) =
        ruuid_generate_version_5_sip [1, 2] (some [97]) ∧
      ∀ nm, (some [97] : Option (List Nat)) = some nm → nm ≠ [] →
        ruuid_generate_version_5_sip [1, 2] (some [97]) =
          some (setVersionVariant 5 ((sha1 ([1, 2] ++ nm)).take 16))) :=
  ⟨rfl, rfl, claim_c2_v5_deterministic [1, 2] [1, 2] (some [97]) (some [97])
    rfl rfl⟩

/-- C3: the textual inputs accepted by `ruuid_parse` are exactly the four
shapes of the spec: simple (32 contiguous hex digits), hyphenated
(8-4-4-4-12), urn (`urn:uuid:` plus hyphenated) and braced (hyphenated in
braces), case-insensitive on hex digits; everything else fails and produces
no Value, and no constraint is put on version or variant bits. -/
theorem claim_c3_parse_accepts_exactly_shapes (s : List Char) :
    (ruuid_parse s).isSome ↔
      SimpleShape s ∨ HyphenatedShape s ∨ UrnShape s ∨ BracedShape s := by
  unfold ruuid_parse
  cases h1 : parseSimple s <;> cases h2 : parseHyphenated s <;>
    cases h3 : parseUrn s <;> cases h4 : parseBraced s <;>
    simp [← parseSimple_isSome_iff, ← parseHyphenated_isSome_iff,
      ← parseUrn_isSome_iff, ← parseBraced_isSome_iff, h1, h2, h3, h4]

/-- C4: a format call fails with -1 leaving the buffer unchanged exactly when
the buffer is shorter than the required length plus one terminator byte,
where the required lengths are Simple 32, Hyphenated 36, Urn 45, Braced 38;
on success it writes the rendering plus terminator and returns the required
length. -/
theorem claim_c4_format_buffer (v : List Nat) (hv : wfBytes v) (st : Style)
    (buf : List Char) :
    (ruuid_format st v).length = requiredLength st ∧
    (buf.length < requiredLength st + 1 → ruuid_get st v buf = (buf, -1)) ∧
    (requiredLength st + 1 ≤ buf.length →
      ruuid_get st v buf =
        (ruuid_format st v ++ Char.ofNat 0 :: buf.drop (requiredLength st + 1),
          (requiredLength st : Int))) := by
  have hl := ruuid_format_length v hv st
  refine ⟨hl, ?_, ?_⟩
  · intro hlt
    unfold ruuid_get
    rw [if_pos (by omega)]
  · intro hge
    unfold ruuid_get
    rw [if_neg (by omega)]
    unfold writeBuffer
    rw [hl]

theorem claim_c4_format_buffer_witness :
    wfBytes ruuid_generate_nil ∧
    ((ruuid_format Style.hyphenated ruuid_generate_nil).length =
        requiredLength Style.hyphenated ∧
      (uuidBuffer.length < requiredLength Style.hyphenated + 1 →
        ruuid_get Style.hyphenated ruuid_generate_nil uuidBuffer =
          (uuidBuffer, -1)) ∧
      (requiredLength Style.hyphenated + 1 ≤ uuidBuffer.length →
        ruuid_get Style.hyphenated ruuid_generate_nil uuidBuffer =
          (ruuid_format Style.hyphenated ruuid_generate_nil ++ Char.ofNat 0 ::
              uuidBuffer.drop (requiredLength Style.hyphenated + 1),
            (requiredLength Style.hyphenated : Int)))) :=
  ⟨by decide, claim_c4_format_buffer ruuid_generate_nil (by decide)
    Style.hyphenated uuidBuffer⟩

/-- C5: on a non-null handle `ruuid_is_nil` answers 1 exactly when every byte
of the Value is zero, and otherwise 0; no other bit pattern is classified as
nil and no version or variant reasoning is involved. -/
theorem claim_c5_is_nil_iff_all_zero (v : List Nat) :
    (ruuid_is_nil (some v) = 1 ↔ ∀ b ∈ v, b = 0) ∧
    (ruuid_is_nil (some v) = 1 ∨ ruuid_is_nil (some v) = 0) := by
  simp only [ruuid_is_nil]
  by_cases h : v.all (fun b => b = 0)
  · rw [if_pos h]
    rw [List.all_eq_true] at h
    exact ⟨⟨fun _ b hb => by simpa using h b hb, fun _ => rfl⟩, Or.inl rfl⟩
  · rw [if_neg h]
    refine ⟨⟨fun h0 => absurd h0 (by decide), fun hall => ?_⟩, Or.inr rfl⟩
    exact absurd (List.all_eq_true.mpr (fun b hb => by simpa using hall b hb)) h

/-- C6: `ruuid_generate_nil` returns the all-zero Value, `ruuid_is_nil` holds
on it and its hyphenated rendering is the canonical all-zero text. -/
theorem claim_c6_nil_canonical :
    ruuid_generate_nil = List.replicate 16 0 ∧
    ruuid_is_nil (some ruuid_generate_nil) = 1 ∧
    ruuid_format Style.hyphenated ruuid_generate_nil =
      "00000000-0000-0000-0000-000000000000".toList := by decide

/-- C7: every Value from `ruuid_generate_version_4` has version field 4 and
RFC4122 variant, so the version hex digit of its rendering is `4` and the
variant hex digit is one of 8, 9, a, b; every Value from
`ruuid_generate_version_5_sip` satisfies the analogue with version digit
`5`. -/
theorem claim_c7_version_variant_bits (r ns nm : List Nat) (hr : wfBytes r)
    (hnm : nm ≠ []) :
    ((ruuid_generate_version_4 r).getD 6 0 / 16 = 4 ∧
      (ruuid_generate_version_4 r).getD 8 0 / 64 = 2 ∧
      (formatSimple (ruuid_generate_version_4 r))[12]? = some '4' ∧
      (∃ c, (formatSimple (ruuid_generate_version_4 r))[16]? = some c ∧
        c ∈ (['8', '9', 'a', 'b'] : List Char))) ∧
    ∀ v5, ruuid_generate_version_5_sip ns (some nm) = some v5 →
      v5.getD 6 0 / 16 = 5 ∧ v5.getD 8 0 / 64 = 2 ∧
      (formatSimple v5)[12]? = some '5' ∧
      ∃ c, (formatSimple v5)[16]? = some c ∧
        c ∈ (['8', '9', 'a', 'b'] : List Char) := by
  constructor
  · have h4 := setVersionVariant_fields 4 r hr
    exact ⟨h4.1, h4.2.1, by rw [show '4' = hexDigit 4 from rfl]; exact h4.2.2.1,
      h4.2.2.2⟩
  · intro v5 h5
    match nm, hnm with
    | b :: t, _ =>
      rw [show ruuid_generate_version_5_sip ns (some (b :: t)) =
          some (setVersionVariant 5 ((sha1 (ns ++ b :: t)).take 16)) from rfl]
          at h5
      injection h5 with h5
      subst h5
      have h5f := setVersionVariant_fields 5 ((sha1 (ns ++ b :: t)).take 16)
        (wfBytes_sha1_take (ns ++ b :: t))
      exact ⟨h5f.1, h5f.2.1,
        by rw [show '5' = hexDigit 5 from rfl]; exact h5f.2.2.1, h5f.2.2.2⟩

theorem claim_c7_version_variant_bits_witness :
    wfBytes [0, 0, 0, 0, 0, 0, 0, 0, 0, 0, 0, 0, 0, 0, 0, 0] ∧
    ([97] : List Nat) ≠ [] ∧
    (((ruuid_generate_version_4
          [0, 0, 0, 0, 0, 0, 0, 0, 0, 0, 0, 0, 0, 0, 0, 0]).getD 6 0 / 16 = 4 ∧
      (ruuid_generate_version_4
          [0, 0, 0, 0, 0, 0, 0, 0, 0, 0, 0, 0, 0, 0, 0, 0]).getD 8 0 / 64 = 2 ∧
      (formatSimple (ruuid_generate_version_4
          [0, 0, 0, 0, 0, 0, 0, 0, 0, 0, 0, 0, 0, 0, 0, 0]))[12]? = some '4' ∧
      (∃ c, (formatSimple (ruuid_generate_version_4
          [0, 0, 0, 0, 0, 0, 0, 0, 0, 0, 0, 0, 0, 0, 0, 0]))[16]? = some c ∧
        c ∈ (['8', '9', 'a', 'b'] : List Char))) ∧
    ∀ v5, ruuid_generate_version_5_sip [] (some [97]) = some v5 →
      v5.getD 6 0 / 16 = 5 ∧ v5.getD 8 0 / 64 = 2 ∧
      (formatSimple v5)[12]? = some '5' ∧
      ∃ c, (formatSimple v5)[16]? = some c ∧
        c ∈ (['8', '9', 'a', 'b'] : List Char)) :=
  ⟨by decide, by decide,
    claim_c7_version_variant_bits [0, 0, 0, 0, 0, 0, 0, 0, 0, 0, 0, 0, 0, 0, 0, 0]
      [] [97] (by decide) (by decide)⟩

/-- C8: `ruuid_generate_version_5_sip` returns a Value exactly when the name
is present and non-empty; a null or empty name yields no Value at all. -/
theorem claim_c8_v5_name_required (ns : List Nat) (name : Option (List Nat)) :
    (ruuid_generate_version_5_sip ns name).isSome ↔
      ∃ nm, name = some nm ∧ nm ≠ [] := by
  cases name with
  | none => simp [ruuid_generate_version_5_sip]
  | some nm =>
    cases nm with
    | nil => simp [ruuid_generate_version_5_sip]
    | cons b t =>
      simp only [ruuid_generate_version_5_sip, Option.isSome_some, true_iff]
      exact ⟨b :: t, rfl, by simp⟩

/-- C9: when the selected flags carry none of the Simple, Urn or Braced
selectors, `format_uuid` renders hyphenated; and for a style character that
is none of s, S, u, U, b, B, `pv_parse_uuid_name` decodes to flags that
carry the Hyphenated selector and none of the other three, which
`format_uuid` again renders hyphenated. -/
theorem claim_c9_default_hyphenated (v : List Nat) (flags : Nat)
    (c : Char) (rest : List Char) (fl : Nat)
    (h : flags &&& (UUID_SIMPLE ||| UUID_URN ||| UUID_BRACED) = 0)
    (hc : c ∉ (['s', 'S', 'u', 'U', 'b', 'B'] : List Char))
    (hfl : pv_parse_uuid_name (c :: rest) = some fl) :
    format_uuid v flags = ruuid_get_hyphenated v uuidBuffer ∧
    fl &&& (UUID_SIMPLE ||| UUID_URN ||| UUID_BRACED) = 0 ∧
    fl &&& UUID_HYPHENATED = UUID_HYPHENATED ∧
    format_uuid v fl = ruuid_get_hyphenated v uuidBuffer := by
  have hmask : ∀ g : Nat, g &&& (UUID_SIMPLE ||| UUID_URN ||| UUID_BRACED) = 0 →
      format_uuid v g = ruuid_get_hyphenated v uuidBuffer := by
    intro g hg
    have h104 : g &&& 104 = 0 := by
      rw [show (UUID_SIMPLE ||| UUID_URN ||| UUID_BRACED : Nat) = 104
        from by decide] at hg
      exact hg
    have hassoc : g &&& FORMAT_FLAG_BITMASK &&& 104 = 0 := by
      rw [show (FORMAT_FLAG_BITMASK : Nat) = 120 from by decide,
        Nat.land_assoc, show (120 &&& 104 : Nat) = 104 from by decide]
      exact h104
    have hS : g &&& FORMAT_FLAG_BITMASK ≠ UUID_SIMPLE := by
      intro heq
      rw [heq, show (UUID_SIMPLE &&& 104 : Nat) = 8 from by decide] at hassoc
      exact absurd hassoc (by decide)
    have hU : g &&& FORMAT_FLAG_BITMASK ≠ UUID_URN := by
      intro heq
      rw [heq, show (UUID_URN &&& 104 : Nat) = 32 from by decide] at hassoc
      exact absurd hassoc (by decide)
    have hB : g &&& FORMAT_FLAG_BITMASK ≠ UUID_BRACED := by
      intro heq
      rw [heq, show (UUID_BRACED &&& 104 : Nat) = 64 from by decide] at hassoc
      exact absurd hassoc (by decide)
    unfold format_uuid
    rw [if_neg hS, if_neg hU, if_neg hB]
  have hstyle : styleFlag c = UUID_HYPHENATED := by
    simp only [List.mem_cons, List.not_mem_nil, or_false, not_or] at hc
    unfold styleFlag
    rw [if_neg (by tauto), if_neg (by tauto), if_neg (by tauto)]
  have hfl16 : fl = UUID_HYPHENATED ∨ fl = UUID_HYPHENATED ||| UUID_SIP_FROM ∨
      fl = UUID_HYPHENATED ||| UUID_SIP_TO := by
    simp only [pv_parse_uuid_name] at hfl
    split_ifs at hfl with hr1
    · injection hfl with hfl
      rcases tagFlag_cases (rest.headD ' ') with ht | ht | ht <;>
        rw [hstyle, ht] at hfl <;> subst hfl
      · right; left; rfl
      · right; right; rfl
      · left; decide
    · injection hfl with hfl
      rw [hstyle] at hfl
      subst hfl
      left; rfl
  have hflmask : fl &&& (UUID_SIMPLE ||| UUID_URN ||| UUID_BRACED) = 0 := by
    rcases hfl16 with hf | hf | hf <;> subst hf <;> decide
  have hfl16' : fl &&& UUID_HYPHENATED = UUID_HYPHENATED := by
    rcases hfl16 with hf | hf | hf <;> subst hf <;> decide
  exact ⟨hmask flags h, hflmask, hfl16', hmask fl hflmask⟩

theorem claim_c9_default_hyphenated_witness :
    ((18 : Nat) &&& (UUID_SIMPLE ||| UUID_URN ||| UUID_BRACED) = 0) ∧
    ('h' ∉ (['s', 'S', 'u', 'U', 'b', 'B'] : List Char)) ∧
    pv_parse_uuid_name ['h'] = some 16 ∧
    (format_uuid ruuid_generate_nil 18 =
        ruuid_get_hyphenated ruuid_generate_nil uuidBuffer ∧
      (16 : Nat) &&& (UUID_SIMPLE ||| UUID_URN ||| UUID_BRACED) = 0 ∧
      (16 : Nat) &&& UUID_HYPHENATED = UUID_HYPHENATED ∧
      format_uuid ruuid_generate_nil 16 =
        ruuid_get_hyphenated ruuid_generate_nil uuidBuffer) :=
  ⟨by decide, by decide, by decide,
    claim_c9_default_hyphenated ruuid_generate_nil 18 'h' [] 16 (by decide)
      (by decide) (by decide)⟩

/-- C10: `w_uuid_is_nil` only ever returns 1 or -1, never 0; it returns 1
exactly when the argument is retrieved, parses as a UUID and that UUID is
nil, so a parse failure and a parsed non-nil UUID are indistinguishable. -/
theorem claim_c10_w_uuid_is_nil_results (p : Option (List Char)) :
    (w_uuid_is_nil p = 1 ∨ w_uuid_is_nil p = -1) ∧
    w_uuid_is_nil p ≠ 0 ∧
    (w_uuid_is_nil p = 1 ↔
      ∃ s u, p = some s ∧ ruuid_parse s = some u ∧
        ruuid_is_nil (some u) = 1) := by
  cases p with
  | none =>
    refine ⟨Or.inr rfl, by decide, ?_⟩
    constructor
    · intro h; exact absurd h (by decide)
    · rintro ⟨s, u, hs, -, -⟩; exact absurd hs (by simp)
  | some s =>
    cases hp : ruuid_parse s with
    | none =>
      have hw : w_uuid_is_nil (some s) = -1 := by simp [w_uuid_is_nil, hp]
      rw [hw]
      refine ⟨Or.inr rfl, by decide, ?_⟩
      constructor
      · intro h; exact absurd h (by decide)
      · rintro ⟨s', u, hs, hu, -⟩
        injection hs with hs
        subst hs
        rw [hp] at hu
        exact absurd hu (by simp)
    | some u =>
      by_cases hz : u.all (fun b => b = 0)
      · have hw : w_uuid_is_nil (some s) = 1 := by
          simp [w_uuid_is_nil, hp, ruuid_is_nil, hz]
        rw [hw]
        exact ⟨Or.inl rfl, by decide,
          ⟨fun _ => ⟨s, u, rfl, hp, by simp [ruuid_is_nil, hz]⟩, fun _ => rfl⟩⟩
      · have hw : w_uuid_is_nil (some s) = -1 := by
          simp [w_uuid_is_nil, hp, ruuid_is_nil, hz]
        rw [hw]
        refine ⟨Or.inr rfl, by decide, ?_⟩
        constructor
        · intro h; exact absurd h (by decide)
        · rintro ⟨s', u', hs, hu', hnil⟩
          injection hs with hs
          subst hs
          rw [hp] at hu'
          injection hu' with hu'
          subst hu'
          simp [ruuid_is_nil, hz] at hnil
